import Mathlib

/-!
Verification development for the enterprise AI-agent execution platform
(digital-employee-swarm).  The definitions below are shallow embeddings of
the Python modules under `src/harness/`:

* `src/harness/risk_assessor.py`  — keyword rule pass, `_max_risk`,
  `SemanticRiskAssessor.assess`;
* `src/harness/eval_engine.py`    — `EvalEngine.evaluate` and its three
  sub-scores (structure, richness, relevance);
* `src/harness/session_store.py`  — `SessionStore.save_session` (a plain
  SQL INSERT; the table is modelled as a list of rows in insertion order);
* `src/harness/git_memory.py`     — `GitMemory.commit_progress` (an
  unconditional append to the progress log);
* `src/harness/core.py`           — `EnterpriseHarness.run_epcc_cycle`;
* `src/harness/task_queue.py`     — the task table, `cancel`,
  `get_pending_tasks`, `_dequeue_next`, `_execute_task`,
  `_retry_with_backoff`;
* `src/harness/hitl_manager.py`   — the approval-request table, `resolve`,
  `expire_timeouts`, `get_request`, `is_approved`;
* `src/harness/workflow_engine.py` — `_safe_eval_condition` and
  `WorkflowEngine._execute_condition_step` over a model of the Python
  expression AST.

Numeric scores (Python floats compared against exact decimal literals) are
modelled as rationals; SQL text timestamps, which are ISO-8601 UTC strings
whose lexicographic order coincides with chronological order, are modelled
as natural numbers.
-/

/-- Python `str.lower()` restricted to per-character lowering (identity on
CJK characters, ASCII upper → lower). -/
def pyLower (s : String) : String := String.mk (s.toList.map Char.toLower)

/-- Whether the first character list is a prefix of the second. -/
def charListIsPrefixOf : List Char → List Char → Bool
  | [], _ => true
  | _ :: _, [] => false
  | a :: as, b :: bs => a == b && charListIsPrefixOf as bs

/-- Whether the needle occurs as a contiguous run inside the haystack. -/
def charListContains (hay needle : List Char) : Bool :=
  match hay with
  | [] => needle.isEmpty
  | _ :: rest => charListIsPrefixOf needle hay || charListContains rest needle

/-- Python `needle in hay` on strings: substring containment. -/
def strContains (hay needle : String) : Bool :=
  charListContains hay.toList needle.toList

/-- Accumulating splitter for `pyWords`: the first argument is the
remaining input, the second the reversed current word. -/
def splitWordsAux : List Char → List Char → List String
  | [], acc => if acc.isEmpty then [] else [String.mk acc.reverse]
  | c :: cs, acc =>
    if c.isWhitespace then
      if acc.isEmpty then splitWordsAux cs []
      else String.mk acc.reverse :: splitWordsAux cs []
    else splitWordsAux cs (c :: acc)

/-- Python `str.split()` with no argument: split on runs of whitespace,
dropping empty pieces. -/
def pyWords (s : String) : List String := splitWordsAux s.toList []

/-- Remove every apostrophe and double-quote character, as in
`task.lower().replace(chr(39), "").replace(chr(34), "")` in
`EvalEngine._eval_relevance`. -/
def stripQuoteChars (s : String) : String :=
  String.mk (s.toList.filter (fun c =>
    !(c == Char.ofNat 39 || c == Char.ofNat 34)))

/-! ### Risk assessor (`src/harness/risk_assessor.py`) -/

/-- `RiskLevel` enum. -/
inductive RiskLevel where
  | low
  | med
  | high
deriving DecidableEq, Repr

/-- `HIGH_RISK_KEYWORDS` from `risk_assessor.py`. -/
def highRiskKeywords : List String :=
  ["刪除", "delete", "移除", "remove",
   "覆蓋", "overwrite",
   "全部", "all",
   "生產", "production", "prod",
   "客戶資料", "customer data",
   "薪資", "salary", "payroll",
   "合約", "contract",
   "機密", "confidential"]

/-- `MED_RISK_KEYWORDS` from `risk_assessor.py`. -/
def medRiskKeywords : List String :=
  ["修改", "modify", "update", "編輯", "edit",
   "變更", "change",
   "批次", "batch",
   "發佈", "publish", "deploy",
   "通知", "notify",
   "流程變更", "process change"]

/-- The keyword rule pass shared by `RiskAssessor.assess` and
`SemanticRiskAssessor._assess_with_rules`: case-insensitive substring
search, HIGH match wins over MEDIUM, otherwise LOW.  (The audit-log append
performed by `assess` does not affect the returned level and is not
modelled.) -/
def assessWithRules (task : String) : RiskLevel :=
  let taskLower := pyLower task
  if highRiskKeywords.any (fun kw => strContains taskLower kw) then .high
  else if medRiskKeywords.any (fun kw => strContains taskLower kw) then .med
  else .low

/-- `_RISK_ORDER.index` from `risk_assessor.py`: position of a level in
`[LOW, MED, HIGH]`. -/
def riskIndex : RiskLevel → Nat
  | .low => 0
  | .med => 1
  | .high => 2

/-- `_max_risk` from `risk_assessor.py`:
`a if _RISK_ORDER.index(a) >= _RISK_ORDER.index(b) else b`. -/
def maxRisk (a b : RiskLevel) : RiskLevel :=
  if riskIndex a ≥ riskIndex b then a else b

/-- The conservative ordering `LOW < MEDIUM < HIGH` as a `≤` relation. -/
def riskLe (a b : RiskLevel) : Prop := riskIndex a ≤ riskIndex b

instance (a b : RiskLevel) : Decidable (riskLe a b) := by
  unfold riskLe; infer_instance

/-- `SemanticRiskAssessor.assess` from `risk_assessor.py`.  The LLM pass
(`_assess_with_llm`) is host I/O followed by defensive JSON parsing; its
outcome is the `Option (RiskLevel × ℚ)` argument: `none` when the LLM is
absent, returns empty text, or parsing fails, and `some (level, confidence)`
when a level was parsed.  Step 3 of the source: if a parsed level exists and
`confidence >= 0.8`, take `_max_risk(llm_level, rule_level)`; otherwise use
the rule level. -/
def semanticAssess (task : String) (llmResult : Option (RiskLevel × ℚ)) :
    RiskLevel :=
  let ruleLevel := assessWithRules task
  match llmResult with
  | some (llmLevel, confidence) =>
      if confidence ≥ 0.8 then maxRisk llmLevel ruleLevel else ruleLevel
  | none => ruleLevel

/-! ### Eval engine (`src/harness/eval_engine.py`) -/

/-- `EvalEngine._eval_structure`: base 0.3, +0.2 for a heading mark, +0.2
for a list mark, +0.15 for at least three lines, +0.15 for a key-value
colon, capped at 1.0. -/
def evalStructure (output : String) : ℚ :=
  let s0 : ℚ := 0.3
  let s1 := if strContains output "#" then s0 + 0.2 else s0
  let s2 := if strContains output "-" || strContains output "*"
            then s1 + 0.2 else s1
  let s3 := if (output.toList.filter (fun c => c == Char.ofNat 10)).length
                + 1 ≥ 3 then s2 + 0.15 else s2
  let s4 := if strContains output ":" then s3 + 0.15 else s3
  min s4 1

/-- `EvalEngine._eval_content_richness`: piecewise function of the output
length in characters. -/
def evalContentRichness (output : String) : ℚ :=
  let length := output.length
  if length ≥ 500 then 1
  else if length ≥ 200 then 0.8
  else if length ≥ 100 then 0.6
  else if length ≥ 50 then 0.4
  else 0.2

/-- The set of task words built by `EvalEngine._eval_relevance`:
`set(task.lower().replace(...).replace(...).split())`, modelled as the
deduplicated token list. -/
def taskWordSet (task : String) : List String :=
  (pyWords (stripQuoteChars (pyLower task))).dedup

/-- `EvalEngine._eval_relevance`: count the distinct task words that occur
as **substrings** of the lowercased output (`word in output_lower`), return
0.5 when there are no task words, else `min(matches / len(task_words), 1)`. -/
def evalRelevance (task output : String) : ℚ :=
  let taskWords := taskWordSet task
  let outputLower := pyLower output
  let matchCount : Nat :=
    (taskWords.filter (fun word => strContains outputLower word)).length
  if taskWords = [] then 0.5
  else min ((matchCount : ℚ) / (max taskWords.length 1 : ℚ)) 1

/-- `EvalEngine.evaluate` (keyword mode): the mean of the three sub-scores.
The history append does not affect the returned score and is not
modelled. -/
def evaluate (_agentName task output : String) : ℚ :=
  let scores := [evalStructure output, evalContentRichness output,
                 evalRelevance task output]
  if scores = [] then 0 else scores.sum / (scores.length : ℚ)

/-- The relevance score as the spec's sentence literally reads: the size of
the intersection of the task token set with the output token set, divided
by the size of the task token set (0.5 when the task has no tokens).
This definition follows the spec's words, for comparison with
`evalRelevance`, which is translated from the source. -/
def specRelevance (task output : String) : ℚ :=
  let taskWords := taskWordSet task
  let outputWords := (pyWords (stripQuoteChars (pyLower output))).dedup
  if taskWords = [] then 0.5
  else ((taskWords.filter (fun word => word ∈ outputWords)).length : ℚ) /
       (taskWords.length : ℚ)

/-! ### Session store (`src/harness/session_store.py`) -/

/-- One row of the `sessions` table.  The DDL in `_init_db` declares **no**
UNIQUE constraint on `(agent_name, task_id)`; `id` is the AUTOINCREMENT
primary key, modelled by the position in the list. -/
structure SessionRow where
  agent_name : String
  task_id : String
  task : String
  output : String
  risk_level : String
  eval_score : ℚ
  success : Bool
  timestamp : String
deriving DecidableEq, Repr

/-- `SessionStore.save_session`: a plain `INSERT INTO sessions`, appending
a new row unconditionally. -/
def saveSession (db : List SessionRow) (record : SessionRow) :
    List SessionRow :=
  db ++ [record]

/-- Number of rows for an `(agent_name, task_id)` pair, as in
`SELECT COUNT(*) FROM sessions WHERE agent_name = ? AND task_id = ?`. -/
def countSessions (db : List SessionRow) (agentName taskId : String) : Nat :=
  (db.filter (fun r => r.agent_name == agentName && r.task_id == taskId)).length

/-! ### Git memory (`src/harness/git_memory.py`) -/

/-- The log line written by `GitMemory.commit_progress`:
`[{timestamp}] [{agent_name}] Task-{task_id}: {message}`. -/
def progressLogLine (timestamp agentName taskId message : String) : String :=
  "[" ++ timestamp ++ "] [" ++ agentName ++ "] Task-" ++ taskId ++ ": "
      ++ message

/-- `GitMemory.commit_progress` restricted to its effect on the progress
log: an unconditional append of the formatted line (the PROGRESS.md update
and the git commit attempt add no dedup logic either). -/
def commitProgress (log : List String) (timestamp agentName taskId message :
    String) : List String :=
  log ++ [progressLogLine timestamp agentName taskId message]

/-- Number of log lines containing a given task id, as counted by the
repository's own test helper `_count_task_lines`. -/
def countTaskLines (log : List String) (taskId : String) : Nat :=
  (log.filter (fun line => strContains line taskId)).length

/-! ### EPCC harness (`src/harness/core.py`) -/

/-- `SessionResult` from `core.py` (the timestamp field, wall-clock
formatting only, is dropped). -/
structure SessionResult where
  agent_name : String
  task_id : String
  success : Bool
  output : String
  risk_level : RiskLevel
  eval_score : ℚ
deriving DecidableEq, Repr

/-- `EnterpriseHarness.run_epcc_cycle`.  The executor is host code that
either returns an output string or raises (`Except.error`).  The source:
restores context, assesses risk with the keyword rule pass, **prints a
warning for HIGH risk and proceeds**, invokes the executor inside
`try/except`, evaluates the output, and builds the `SessionResult`
(`commit_session` then appends to the progress log, modelled by
`commitProgress`).  `nowTs` stands for `int(time.time())`. -/
def runEpccCycle (agentName task : String) (nowTs : Nat)
    (executorFn : Option (String → List String → Except String String))
    (lastProgress : List String) : SessionResult :=
  let taskId := "TASK-" ++ toString nowTs
  let risk := assessWithRules task
  let (success, output) :=
    match executorFn with
    | some f =>
        match f task lastProgress with
        | Except.ok out => (true, out)
        | Except.error e => (false, "執行失敗: " ++ e)
    | none => (true, "[模擬] 已處理任務: " ++ task)
  let evalScore := evaluate agentName task output
  { agent_name := agentName, task_id := taskId, success := success,
    output := output, risk_level := risk, eval_score := evalScore }

/-! ### Task queue (`src/harness/task_queue.py`) -/

/-- `TaskStatus` enum. -/
inductive TaskStatus where
  | pending
  | running
  | completed
  | failed
  | cancelled
  | waitingApproval
deriving DecidableEq, Repr

/-- One row of the `tasks` table (`task_id` is the PRIMARY KEY;
`created_at` ISO strings are modelled as naturals, `priority` is the
numeric enum value `CRITICAL=0 < HIGH=1 < NORMAL=2 < LOW=3`). -/
structure TaskRow where
  task_id : String
  agent_name : String
  instruction : String
  priority : Nat
  status : TaskStatus
  created_at : Nat
  started_at : Option Nat := none
  completed_at : Option Nat := none
  result : Option String := none
  error : Option String := none
  retry_count : Nat := 0
  max_retries : Nat := 3
deriving DecidableEq, Repr

/-- Strict `(priority ASC, created_at ASC)` ordering used by the `ORDER BY`
clauses of `_dequeue_next` and `get_pending_tasks`. -/
def taskKeyLt (a b : TaskRow) : Prop :=
  a.priority < b.priority ∨
    (a.priority = b.priority ∧ a.created_at < b.created_at)

instance (a b : TaskRow) : Decidable (taskKeyLt a b) := by
  unfold taskKeyLt; infer_instance

/-- Non-strict `(priority, created_at)` ordering. -/
def taskKeyLe (a b : TaskRow) : Prop :=
  a.priority < b.priority ∨
    (a.priority = b.priority ∧ a.created_at ≤ b.created_at)

instance (a b : TaskRow) : Decidable (taskKeyLe a b) := by
  unfold taskKeyLe; infer_instance

/-- `TaskQueue.get_pending_tasks`:
`SELECT * FROM tasks WHERE status='pending' [AND agent_name=?]
ORDER BY priority ASC, created_at ASC`, modelled as a stable sort of the
filtered rows. -/
def getPendingTasks (rows : List TaskRow) (agentName : Option String) :
    List TaskRow :=
  let pendingRows := rows.filter (fun r =>
    match agentName with
    | some a => r.status == TaskStatus.pending && r.agent_name == a
    | none => r.status == TaskStatus.pending)
  pendingRows.insertionSort taskKeyLe

/-- The row (and its position) that
`SELECT * FROM tasks WHERE status='pending'
ORDER BY priority ASC, created_at ASC LIMIT 1` returns: the pending row
minimal for `(priority, created_at)`, the earliest listed one on exact key
ties (SQLite leaves key ties unspecified; no claim depends on them). -/
def selectPending : List TaskRow → Option (Nat × TaskRow)
  | [] => none
  | t :: ts =>
    match selectPending ts with
    | none => if t.status = TaskStatus.pending then some (0, t) else none
    | some (i, m) =>
        if t.status = TaskStatus.pending then
          if taskKeyLt m t then some (i + 1, m) else some (0, t)
        else some (i + 1, m)

/-- `TaskQueue._dequeue_next`: atomically claim the selected pending row by
setting `status=RUNNING, started_at=now`; return the claimed row and the
updated table. -/
def dequeueNext (nowTs : Nat) (rows : List TaskRow) :
    Option TaskRow × List TaskRow :=
  match selectPending rows with
  | none => (none, rows)
  | some (i, m) =>
      let claimed := { m with status := TaskStatus.running,
                              started_at := some nowTs }
      (some claimed, rows.set i claimed)

/-- The sequence of rows claimed by `n` successive `_dequeue_next` calls
(the worker loop with an idle queue stops producing claims). -/
def claimedSeq (nowTs : Nat) : Nat → List TaskRow → List TaskRow
  | 0, _ => []
  | n + 1, rows =>
    match dequeueNext nowTs rows with
    | (none, _) => []
    | (some c, rows2) => c :: claimedSeq nowTs n rows2

/-- The boolean returned by `TaskQueue.cancel`: `rowcount > 0` of
`UPDATE tasks SET status='cancelled' WHERE task_id=? AND status='pending'`. -/
def cancelReturns (rows : List TaskRow) (taskId : String) : Bool :=
  rows.any (fun r => r.task_id == taskId && r.status == TaskStatus.pending)

/-- The table after `TaskQueue.cancel`. -/
def cancelRun (rows : List TaskRow) (taskId : String) : List TaskRow :=
  rows.map (fun r =>
    if r.task_id == taskId && r.status == TaskStatus.pending
    then { r with status := TaskStatus.cancelled } else r)

/-- One `TaskQueue._execute_task` call on a claimed row.  The executor is
host code, represented by its outcome: `Except.ok result` or a raised
exception `Except.error msg`.  On success: `COMPLETED`, `completed_at`,
`result`.  On failure: `retry_count += 1`; if `retry_count <= max_retries`,
sleep `2^(retry_count-1)` seconds (returned as `some delay`) and set the
row back to `PENDING` (`_retry_with_backoff`); else `FAILED` with
`completed_at`. -/
def executeTaskStep (execResult : Except String String) (nowTs : Nat)
    (t : TaskRow) : TaskRow × Option Nat :=
  match execResult with
  | Except.ok res =>
      ({ t with status := TaskStatus.completed,
                completed_at := some nowTs, result := some res }, none)
  | Except.error e =>
      let rc := t.retry_count + 1
      let t1 := { t with error := some e, retry_count := rc }
      if rc ≤ t.max_retries then
        ({ t1 with status := TaskStatus.pending }, some (2 ^ (rc - 1)))
      else
        ({ t1 with status := TaskStatus.failed,
                   completed_at := some nowTs }, none)

/-- The worker loop (`_worker_loop`) restricted to one task's lifecycle:
while the row is `PENDING`, claim it (`_dequeue_next` sets
`RUNNING, started_at`) and run `_execute_task`; the executor outcome of the
`n`-th invocation is `execF n` (indexed by the row's current retry count).
Returns the number of executor invocations, the list of backoff sleeps in
order, and the final row.  `fuel` bounds the number of loop iterations
modelled; the theorems supply enough fuel for the lifecycle to finish. -/
def workerRun (execF : Nat → Except String String) (nowTs : Nat) :
    Nat → TaskRow → Nat × List Nat × TaskRow
  | 0, t => (0, [], t)
  | fuel + 1, t =>
    if t.status = TaskStatus.pending then
      let claimed := { t with status := TaskStatus.running,
                              started_at := some nowTs }
      let (t2, slept) := executeTaskStep (execF t.retry_count) nowTs claimed
      let (n, sleeps, tf) := workerRun execF nowTs fuel t2
      (n + 1, slept.toList ++ sleeps, tf)
    else (0, [], t)

/-- The operations that touch the `tasks` table.  `finish` is the tail of
`_execute_task` on a task the worker has claimed (its guard `RUNNING`
reflects that a worker only executes a row it claimed, and a claimed row
stays `RUNNING` until that worker's own update). -/
inductive QueueOp where
  | enq (row : TaskRow)
  | cancelT (taskId : String)
  | dequeue (nowTs : Nat)
  | finish (taskId : String) (execResult : Except String String) (nowTs : Nat)

/-- Apply one operation to the table.  `enq` inserts a fresh `PENDING` row
(`task_id` is the PRIMARY KEY, so an insert with an existing id fails and
leaves the table unchanged; ids come from `uuid4`). -/
def applyOp (rows : List TaskRow) : QueueOp → List TaskRow
  | QueueOp.enq row =>
      if rows.any (fun r => r.task_id == row.task_id) then rows
      else rows ++ [{ row with status := TaskStatus.pending,
                               started_at := none, completed_at := none,
                               result := none, error := none,
                               retry_count := 0 }]
  | QueueOp.cancelT taskId => cancelRun rows taskId
  | QueueOp.dequeue nowTs => (dequeueNext nowTs rows).2
  | QueueOp.finish taskId execResult nowTs =>
      rows.map (fun r =>
        if r.task_id == taskId && r.status == TaskStatus.running
        then (executeTaskStep execResult nowTs r).1 else r)

/-- Apply a list of operations in order. -/
def applyOps (rows : List TaskRow) (ops : List QueueOp) : List TaskRow :=
  ops.foldl applyOp rows

/-- The status the queue reports for a task id (`get_status`). -/
def statusOf (rows : List TaskRow) (taskId : String) : Option TaskStatus :=
  (rows.find? (fun r => r.task_id == taskId)).map (fun r => r.status)

/-! ### HITL manager (`src/harness/hitl_manager.py`) -/

/-- `ApprovalStatus` enum. -/
inductive ApprovalStatus where
  | pending
  | approved
  | rejected
  | timeout
  | autoApproved
deriving DecidableEq, Repr

/-- `ApprovalAction` enum. -/
inductive ApprovalAction where
  | approve
  | reject
deriving DecidableEq, Repr

/-- One row of the `approval_requests` table (`request_id` is the PRIMARY
KEY; timestamps in seconds). -/
structure ApprovalRequest where
  request_id : String
  agent_name : String
  task : String
  risk_level : String
  risk_reason : String
  status : ApprovalStatus
  created_at : Nat
  resolved_at : Option Nat := none
  resolved_by : Option String := none
  resolution_note : Option String := none
  webhook_sent : Bool := false
  timeout_hours : Nat := 24
deriving DecidableEq, Repr

/-- The terminal approval states `{APPROVED, REJECTED, TIMEOUT,
AUTO_APPROVED}`. -/
def terminalStatus (s : ApprovalStatus) : Prop :=
  s = ApprovalStatus.approved ∨ s = ApprovalStatus.rejected ∨
  s = ApprovalStatus.timeout ∨ s = ApprovalStatus.autoApproved

instance (s : ApprovalStatus) : Decidable (terminalStatus s) := by
  unfold terminalStatus; infer_instance

/-- The status `HITLManager.resolve` writes for an action. -/
def resolveStatus : ApprovalAction → ApprovalStatus
  | ApprovalAction.approve => ApprovalStatus.approved
  | ApprovalAction.reject => ApprovalStatus.rejected

/-- `HITLManager.resolve`:
`UPDATE approval_requests SET status=?, resolved_at=?, resolved_by=?,
resolution_note=? WHERE request_id=?` — note the WHERE clause has **no**
status guard. -/
def resolveRun (db : List ApprovalRequest) (requestId : String)
    (action : ApprovalAction) (nowTs : Nat) (resolvedBy note : String) :
    List ApprovalRequest :=
  db.map (fun r =>
    if r.request_id == requestId then
      { r with status := resolveStatus action, resolved_at := some nowTs,
               resolved_by := some resolvedBy,
               resolution_note := some note }
    else r)

/-- `HITLManager.get_request`: the row with the given PRIMARY KEY. -/
def getRequest (db : List ApprovalRequest) (requestId : String) :
    Option ApprovalRequest :=
  db.find? (fun r => r.request_id == requestId)

/-- The status stored for a request id. -/
def requestStatus (db : List ApprovalRequest) (requestId : String) :
    Option ApprovalStatus :=
  (getRequest db requestId).map (fun r => r.status)

/-- `HITLManager.is_approved`: `False` when no row exists, else membership
of the status in `{APPROVED, AUTO_APPROVED}`. -/
def isApproved (db : List ApprovalRequest) (requestId : String) : Bool :=
  match getRequest db requestId with
  | none => false
  | some r => r.status == ApprovalStatus.approved ||
              r.status == ApprovalStatus.autoApproved

/-- Whether a pending request's deadline `created_at +
timedelta(hours=timeout_hours)` has been reached at `nowTs`
(`now >= deadline`, timestamps in seconds). -/
def deadlineReached (nowTs : Nat) (r : ApprovalRequest) : Bool :=
  decide (r.created_at + r.timeout_hours * 3600 ≤ nowTs)

/-- `HITLManager.expire_timeouts`: scan the `PENDING` rows, flip the
expired ones to `TIMEOUT`, and return the updated table together with the
expired ids (the per-id UPDATE hits exactly the scanned pending rows since
`request_id` is the PRIMARY KEY). -/
def expireTimeouts (db : List ApprovalRequest) (nowTs : Nat) :
    List ApprovalRequest × List String :=
  let isExpired := fun (r : ApprovalRequest) =>
    r.status == ApprovalStatus.pending && deadlineReached nowTs r
  ((db.map (fun r =>
      if isExpired r then { r with status := ApprovalStatus.timeout }
      else r)),
   (db.filter isExpired).map (fun r => r.request_id))

/-! ### Workflow condition evaluation (`src/harness/workflow_engine.py`)

The condition string is parsed by `ast.parse(condition, mode="eval")`;
the parser is host code, so a parsed condition is modelled as
`Option PyExpr` (`none` for a `SyntaxError`).  Python's n-ary `BoolOp` and
chained `Compare` nodes are represented by nesting binary nodes; this does
not change which node *types* occur in a tree.  Host code execution is
representable only through the `call`, `attribute`, `subscript`, `lambdaE`,
`binOp` and `comprehension` constructors, none of which the evaluator
executes. -/

/-- Python comparison operator nodes (all of them are in
`_SAFE_AST_NODES`). -/
inductive PyCmpOp where
  | eqOp
  | notEqOp
  | ltOp
  | ltEOp
  | gtOp
  | gtEOp
  | isOp
  | isNotOp
  | inOp
  | notInOp
deriving DecidableEq, Repr

/-- Python unary operator nodes; only `ast.Not` is in `_SAFE_AST_NODES`. -/
inductive PyUnaryOp where
  | notOp
  | uSub
  | uAdd
  | invert
deriving DecidableEq, Repr

/-- Python boolean operator nodes (`ast.And`, `ast.Or`). -/
inductive PyBoolOpKind where
  | andOp
  | orOp
deriving DecidableEq, Repr

/-- Values a condition expression manipulates (numbers, strings, booleans,
None — the literal kinds `ast.Constant` covers, plus context values). -/
inductive PyVal where
  | vNone
  | vBool (b : Bool)
  | vInt (n : Int)
  | vStr (s : String)
deriving DecidableEq, Repr

/-- The Python expression AST restricted to the node kinds a condition
string can parse to.  The second group of constructors — `call`,
`attribute`, `subscript`, `lambdaE`, `binOp`, `comprehension` — are the
node types **outside** `_SAFE_AST_NODES`. -/
inductive PyExpr where
  | const (v : PyVal)
  | name (id : String)
  | boolOp (op : PyBoolOpKind) (left right : PyExpr)
  | unaryOp (op : PyUnaryOp) (operand : PyExpr)
  | compare (op : PyCmpOp) (left right : PyExpr)
  | call (func : PyExpr) (arg : PyExpr)
  | attribute (value : PyExpr) (attr : String)
  | subscript (value : PyExpr) (index : PyExpr)
  | lambdaE (body : PyExpr)
  | binOp (left right : PyExpr)
  | comprehension (elt : PyExpr)
deriving DecidableEq, Repr

/-- Whether a single node (together with its operator child nodes) is in
`_SAFE_AST_NODES`. -/
def nodeAllowed : PyExpr → Bool
  | PyExpr.const _ => true
  | PyExpr.name _ => true
  | PyExpr.boolOp _ _ _ => true
  | PyExpr.unaryOp op _ => op == PyUnaryOp.notOp
  | PyExpr.compare _ _ _ => true
  | PyExpr.call _ _ => false
  | PyExpr.attribute _ _ => false
  | PyExpr.subscript _ _ => false
  | PyExpr.lambdaE _ => false
  | PyExpr.binOp _ _ => false
  | PyExpr.comprehension _ => false

/-- The `ast.walk` allowlist check of `_safe_eval_condition`: every node of
the tree is in `_SAFE_AST_NODES`. -/
def allNodesAllowed : PyExpr → Bool
  | PyExpr.const _ => true
  | PyExpr.name _ => true
  | PyExpr.boolOp op l r =>
      nodeAllowed (PyExpr.boolOp op l r) && allNodesAllowed l
        && allNodesAllowed r
  | PyExpr.unaryOp op e =>
      nodeAllowed (PyExpr.unaryOp op e) && allNodesAllowed e
  | PyExpr.compare op l r =>
      nodeAllowed (PyExpr.compare op l r) && allNodesAllowed l
        && allNodesAllowed r
  | PyExpr.call _ _ => false
  | PyExpr.attribute _ _ => false
  | PyExpr.subscript _ _ => false
  | PyExpr.lambdaE _ => false
  | PyExpr.binOp _ _ => false
  | PyExpr.comprehension _ => false

/-- Python truthiness, as applied by the final `bool(...)`. -/
def truthy : PyVal → Bool
  | PyVal.vNone => false
  | PyVal.vBool b => b
  | PyVal.vInt n => n != 0
  | PyVal.vStr s => s != ""

/-- One comparison on values (orderings only between two ints or two
strings, `TypeError` otherwise; `in` as substring on strings; identity
approximated by equality on these immutable values). -/
def evalCompare (op : PyCmpOp) (a b : PyVal) : Except String PyVal :=
  match op with
  | PyCmpOp.eqOp => Except.ok (PyVal.vBool (a == b))
  | PyCmpOp.notEqOp => Except.ok (PyVal.vBool (a != b))
  | PyCmpOp.isOp => Except.ok (PyVal.vBool (a == b))
  | PyCmpOp.isNotOp => Except.ok (PyVal.vBool (a != b))
  | PyCmpOp.ltOp =>
      match a, b with
      | PyVal.vInt x, PyVal.vInt y => Except.ok (PyVal.vBool (decide (x < y)))
      | PyVal.vStr x, PyVal.vStr y => Except.ok (PyVal.vBool (decide (x < y)))
      | _, _ => Except.error "TypeError"
  | PyCmpOp.ltEOp =>
      match a, b with
      | PyVal.vInt x, PyVal.vInt y => Except.ok (PyVal.vBool (decide (x ≤ y)))
      | PyVal.vStr x, PyVal.vStr y => Except.ok (PyVal.vBool (decide (x ≤ y)))
      | _, _ => Except.error "TypeError"
  | PyCmpOp.gtOp =>
      match a, b with
      | PyVal.vInt x, PyVal.vInt y => Except.ok (PyVal.vBool (decide (y < x)))
      | PyVal.vStr x, PyVal.vStr y => Except.ok (PyVal.vBool (decide (y < x)))
      | _, _ => Except.error "TypeError"
  | PyCmpOp.gtEOp =>
      match a, b with
      | PyVal.vInt x, PyVal.vInt y => Except.ok (PyVal.vBool (decide (y ≤ x)))
      | PyVal.vStr x, PyVal.vStr y => Except.ok (PyVal.vBool (decide (y ≤ x)))
      | _, _ => Except.error "TypeError"
  | PyCmpOp.inOp =>
      match a, b with
      | PyVal.vStr x, PyVal.vStr y =>
          Except.ok (PyVal.vBool (strContains y x))
      | _, _ => Except.error "TypeError"
  | PyCmpOp.notInOp =>
      match a, b with
      | PyVal.vStr x, PyVal.vStr y =>
          Except.ok (PyVal.vBool (!(strContains y x)))
      | _, _ => Except.error "TypeError"

/-- Evaluation of a **validated** tree against the context (the
`eval(compile(tree, ...), ..., context)` step): name lookups resolve from
the context only (`NameError` otherwise, since builtins are emptied);
boolean operators short-circuit.  The constructors outside the allowlist
return an error and execute nothing — they are unreachable through
`safeEvalCondition`, which rejects before evaluating. -/
def evalPyExpr (ctx : String → Option PyVal) : PyExpr → Except String PyVal
  | PyExpr.const v => Except.ok v
  | PyExpr.name id =>
      match ctx id with
      | some v => Except.ok v
      | none => Except.error "NameError"
  | PyExpr.boolOp op l r => do
      let lv ← evalPyExpr ctx l
      match op with
      | PyBoolOpKind.andOp =>
          if truthy lv then evalPyExpr ctx r else Except.ok lv
      | PyBoolOpKind.orOp =>
          if truthy lv then Except.ok lv else evalPyExpr ctx r
  | PyExpr.unaryOp op e => do
      let v ← evalPyExpr ctx e
      match op with
      | PyUnaryOp.notOp => Except.ok (PyVal.vBool (!truthy v))
      | _ => Except.error "disallowed operator"
  | PyExpr.compare op l r => do
      let lv ← evalPyExpr ctx l
      let rv ← evalPyExpr ctx r
      evalCompare op lv rv
  | PyExpr.call _ _ => Except.error "host execution required"
  | PyExpr.attribute _ _ => Except.error "host execution required"
  | PyExpr.subscript _ _ => Except.error "host execution required"
  | PyExpr.lambdaE _ => Except.error "host execution required"
  | PyExpr.binOp _ _ => Except.error "host execution required"
  | PyExpr.comprehension _ => Except.error "host execution required"

/-- `_safe_eval_condition`: `SyntaxError` during parse returns `ok false`;
a node outside the allowlist raises `ValueError` before anything is
evaluated; otherwise the validated tree is evaluated (never the raw text). -/
def safeEvalCondition (parsed : Option PyExpr) (ctx : String → Option PyVal) :
    Except String Bool :=
  match parsed with
  | none => Except.ok false
  | some tree =>
      if allNodesAllowed tree then
        match evalPyExpr ctx tree with
        | Except.ok v => Except.ok (truthy v)
        | Except.error e => Except.error e
      else Except.error "不允許的表達式節點"

/-- `WorkflowEngine._execute_condition_step`: an absent condition passes;
any exception from `_safe_eval_condition` yields `False`. -/
def executeConditionStep (condition : Option (Option PyExpr))
    (ctx : String → Option PyVal) : Bool :=
  match condition with
  | none => true
  | some parsed =>
      match safeEvalCondition parsed ctx with
      | Except.ok b => b
      | Except.error _ => false

/-- The row `_dequeue_next` writes back when it claims a task. -/
def claimedRow (nowTs : Nat) (t : TaskRow) : TaskRow :=
  { t with status := TaskStatus.running, started_at := some nowTs }

/-- The condition string of end-to-end scenario 7,
`__import__(chr(39)os chr(39)).system(...)`, as its parsed AST: a `Call`
of an `Attribute` of a `Call`. -/
def injectionConditionAst : PyExpr :=
  PyExpr.call
    (PyExpr.attribute
      (PyExpr.call (PyExpr.name "__import__") (PyExpr.const (PyVal.vStr "os")))
      "system")
    (PyExpr.const (PyVal.vStr "rm -rf /"))

/-- Scenario 2's `("A", "low", LOW)` task, enqueued first. -/
def rowLow : TaskRow :=
  { task_id := "T-low", agent_name := "A", instruction := "low",
    priority := 3, status := TaskStatus.pending, created_at := 0 }

/-- Scenario 2's `("A", "normal", NORMAL)` task. -/
def rowNormal : TaskRow :=
  { task_id := "T-normal", agent_name := "A", instruction := "normal",
    priority := 2, status := TaskStatus.pending, created_at := 1 }

/-- Scenario 2's `("A", "crit", CRITICAL)` task. -/
def rowCrit : TaskRow :=
  { task_id := "T-crit", agent_name := "A", instruction := "crit",
    priority := 0, status := TaskStatus.pending, created_at := 2 }

/-- Scenario 2's `("A", "high", HIGH)` task, enqueued last. -/
def rowHigh : TaskRow :=
  { task_id := "T-high", agent_name := "A", instruction := "high",
    priority := 1, status := TaskStatus.pending, created_at := 3 }

/-- End-to-end scenario 2: the four tasks in enqueue order. -/
def scenarioRows : List TaskRow := [rowLow, rowNormal, rowCrit, rowHigh]

/-- A single pending task used to exercise `cancel`. -/
def pendingRowT1 : TaskRow :=
  { task_id := "T1", agent_name := "A", instruction := "x",
    priority := 2, status := TaskStatus.pending, created_at := 0 }

/-! ## Theorems -/

/-- **C1.** Idempotent commit fails on the code: `save_session` is a plain
INSERT with no `UNIQUE(agent_name, task_id)` constraint, and
`commit_progress` appends unconditionally, so a second commit of the same
`(agent, task_id)` leaves two rows and two log lines — contradicting the
repository's own tests (`test_idempotency.py` expects one row, a UNIQUE
constraint, and a `_is_duplicate` dedup check that the code does not
have). -/
theorem save_session_duplicates_rows :
    countSessions
      (saveSession
        (saveSession []
          { agent_name := "KM_AGENT", task_id := "TASK-1",
            task := "extract SOP", output := "ok", risk_level := "LOW",
            eval_score := 0.8, success := true, timestamp := "t1" })
        { agent_name := "KM_AGENT", task_id := "TASK-1",
          task := "extract SOP", output := "retry", risk_level := "LOW",
          eval_score := 0.9, success := true, timestamp := "t2" })
      "KM_AGENT" "TASK-1" = 2 ∧
    countTaskLines
      (commitProgress
        (commitProgress [] "2025-01-01 00:00:00" "KM_AGENT" "TASK-9999"
          "first write")
        "2025-01-01 00:00:01" "KM_AGENT" "TASK-9999" "second write")
      "TASK-9999" = 2 := by
  constructor
  · rfl
  · decide

/-- **C2.** HITL gating fails on the code: `run_epcc_cycle` never calls
`HITLManager.check_and_gate`; for the HIGH-risk instruction of scenario 4
it still invokes the executor and returns `success=true` with the
executor's output (no approval id) — contradicting spec properties P7 and
scenario 4, and the HITL module's own stated purpose. -/
theorem run_epcc_cycle_executes_high_risk :
    assessWithRules "delete all customer data" = RiskLevel.high ∧
    (runEpccCycle "KM" "delete all customer data" 1700000000
        (some (fun _ _ => Except.ok "EXECUTED")) []).risk_level
      = RiskLevel.high ∧
    (runEpccCycle "KM" "delete all customer data" 1700000000
        (some (fun _ _ => Except.ok "EXECUTED")) []).success = true ∧
    (runEpccCycle "KM" "delete all customer data" 1700000000
        (some (fun _ _ => Except.ok "EXECUTED")) []).output = "EXECUTED" := by
  refine ⟨by decide, ?_, rfl, rfl⟩
  show assessWithRules "delete all customer data" = RiskLevel.high
  decide

/-- **C7.** Safe condition evaluation: a parsed condition containing any
node outside `_SAFE_AST_NODES` makes `_safe_eval_condition` raise before
anything is evaluated (the error is the allowlist `ValueError`, so no host
code named in the condition runs and the raw text is never evaluated), and
the CONDITION step catches the exception and evaluates to `false`. -/
theorem condition_step_rejects_disallowed_nodes
    (e : PyExpr) (ctx : String → Option PyVal)
    (h : allNodesAllowed e = false) :
    safeEvalCondition (some e) ctx = Except.error "不允許的表達式節點" ∧
    executeConditionStep (some (some e)) ctx = false := by
  have hsafe : safeEvalCondition (some e) ctx
      = Except.error "不允許的表達式節點" := by
    simp [safeEvalCondition, h]
  exact ⟨hsafe, by simp [executeConditionStep, hsafe]⟩

/-- Witness for C7 at the injection condition of scenario 7. -/
theorem condition_step_rejects_disallowed_nodes_witness :
    allNodesAllowed injectionConditionAst = false ∧
    executeConditionStep (some (some injectionConditionAst))
      (fun _ => none) = false :=
  ⟨by decide,
   (condition_step_rejects_disallowed_nodes injectionConditionAst
     (fun _ => none) (by decide)).2⟩

/-- `_max_risk` really is the maximum for the `LOW < MEDIUM < HIGH`
ordering: an upper bound of both arguments, and equal to one of them. -/
theorem maxRisk_is_max (a b : RiskLevel) :
    riskLe a (maxRisk a b) ∧ riskLe b (maxRisk a b) ∧
    (maxRisk a b = a ∨ maxRisk a b = b) := by
  cases a <;> cases b <;> simp [maxRisk, riskLe, riskIndex]

/-- **C8.** Risk conservatism: with a parsed LLM level of confidence
`≥ 0.8`, `SemanticRiskAssessor.assess` returns the maximum of the LLM
level and the rule level under `LOW < MEDIUM < HIGH` (an upper bound of
both that is one of the two); with confidence `< 0.8`, or no parsed LLM
level (absent LLM or parse failure), it returns exactly the rule-pass
level. -/
theorem semantic_assess_conservative (task : String) (l : RiskLevel)
    (c : ℚ) :
    (c ≥ 0.8 →
      riskLe l (semanticAssess task (some (l, c))) ∧
      riskLe (assessWithRules task) (semanticAssess task (some (l, c))) ∧
      (semanticAssess task (some (l, c)) = l ∨
       semanticAssess task (some (l, c)) = assessWithRules task)) ∧
    (c < 0.8 → semanticAssess task (some (l, c)) = assessWithRules task) ∧
    semanticAssess task none = assessWithRules task := by
  refine ⟨fun hc => ?_, fun hc => ?_, rfl⟩
  · have h : semanticAssess task (some (l, c))
        = maxRisk l (assessWithRules task) := by
      simp [semanticAssess, hc]
    rw [h]
    exact maxRisk_is_max l (assessWithRules task)
  · simp [semanticAssess, not_le.mpr hc]

/-- Witness for C8 on a MEDIUM-keyword instruction with a HIGH LLM verdict
at confidence 0.9, and again at confidence 0.5. -/
theorem semantic_assess_conservative_witness :
    (riskLe RiskLevel.high
        (semanticAssess "update the report" (some (RiskLevel.high, 0.9))) ∧
      riskLe (assessWithRules "update the report")
        (semanticAssess "update the report" (some (RiskLevel.high, 0.9))) ∧
      (semanticAssess "update the report" (some (RiskLevel.high, 0.9))
          = RiskLevel.high ∨
       semanticAssess "update the report" (some (RiskLevel.high, 0.9))
          = assessWithRules "update the report")) ∧
    semanticAssess "update the report" (some (RiskLevel.high, 0.5))
      = assessWithRules "update the report" :=
  ⟨(semantic_assess_conservative "update the report" RiskLevel.high 0.9).1
     (by norm_num),
   (semantic_assess_conservative "update the report" RiskLevel.high 0.5).2.1
     (by norm_num)⟩

/-- **C10.** Approval query semantics: `is_approved` returns `true` exactly
when a stored request with that id exists and its status is `APPROVED` or
`AUTO_APPROVED`; it is a total function, so a missing id or a
`PENDING`/`REJECTED`/`TIMEOUT` status yields `false` without raising. -/
theorem is_approved_iff (db : List ApprovalRequest) (requestId : String) :
    isApproved db requestId = true ↔
      ∃ r, getRequest db requestId = some r ∧
        (r.status = ApprovalStatus.approved ∨
         r.status = ApprovalStatus.autoApproved) := by
  unfold isApproved
  cases h : getRequest db requestId with
  | none => simp [h]
  | some r =>
      simp only [h]
      constructor
      · intro hb
        refine ⟨r, rfl, ?_⟩
        rcases Bool.or_eq_true_iff.mp hb with h1 | h1
        · exact Or.inl (by exact beq_iff_eq.mp h1)
        · exact Or.inr (by exact beq_iff_eq.mp h1)
      · rintro ⟨r', hr', hst⟩
        cases Option.some.injEq .. ▸ hr'
        rcases hst with h1 | h1 <;> simp [h1]

/-- `requestStatus` over a row map whose function preserves `request_id`. -/
theorem requestStatus_map (db : List ApprovalRequest) (requestId : String)
    (f : ApprovalRequest → ApprovalRequest)
    (hid : ∀ r, (f r).request_id = r.request_id) :
    requestStatus (db.map f) requestId
      = (getRequest db requestId).map (fun r => (f r).status) := by
  induction db with
  | nil => rfl
  | cons head tail ih =>
      unfold requestStatus getRequest at *
      by_cases h : head.request_id = requestId
      · simp [List.find?_cons, hid, h]
      · simpa [List.find?_cons, hid, h] using ih

/-- **C6 counterexample.** `resolve` has no status guard in its UPDATE, so
a request already in the terminal state `APPROVED` is flipped to
`REJECTED` by a subsequent `resolve(..., REJECT, ...)`: monotone approval
resolution fails on the code as claimed. -/
theorem resolve_overwrites_terminal_counterexample :
    requestStatus
      [{ request_id := "REQ-1", agent_name := "KM", task := "刪除全部資料",
         risk_level := "HIGH", risk_reason := "", 
         status := ApprovalStatus.approved, created_at := 0,
         resolved_at := some 10, resolved_by := some "admin",
         resolution_note := some "ok", webhook_sent := false,
         timeout_hours := 24 }] "REQ-1" = some ApprovalStatus.approved ∧
    terminalStatus ApprovalStatus.approved ∧
    requestStatus
      (resolveRun
        [{ request_id := "REQ-1", agent_name := "KM", task := "刪除全部資料",
           risk_level := "HIGH", risk_reason := "", 
           status := ApprovalStatus.approved, created_at := 0,
           resolved_at := some 10, resolved_by := some "admin",
           resolution_note := some "ok", webhook_sent := false,
           timeout_hours := 24 }] "REQ-1" ApprovalAction.reject 20 "admin2"
        "changed my mind") "REQ-1" = some ApprovalStatus.rejected := by
  refine ⟨rfl, by decide, rfl⟩

/-- **C6 (amended).** Terminal approval states are preserved by
`expire_timeouts`, which only touches `PENDING` rows; `resolve`, however,
unconditionally overwrites the status of the named request — even a
terminal one — with the action's status, so monotonicity holds against
`expire_timeouts` but not against `resolve`. -/
theorem terminal_status_after_expire_and_resolve
    (db : List ApprovalRequest) (requestId : String) (nowTs : Nat)
    (s : ApprovalStatus) :
    (requestStatus db requestId = some s → terminalStatus s →
      requestStatus (expireTimeouts db nowTs).1 requestId = some s) ∧
    (∀ (action : ApprovalAction) (rts : Nat) (rby note : String),
      requestStatus db requestId = some s →
      requestStatus (resolveRun db requestId action rts rby note) requestId
        = some (resolveStatus action)) := by
  constructor
  · intro hs hterm
    unfold requestStatus at hs
    obtain ⟨r0, hfind, hstat⟩ : ∃ r0, getRequest db requestId = some r0 ∧
        r0.status = s := by
      cases h : getRequest db requestId with
      | none => simp [h] at hs
      | some r0 => exact ⟨r0, rfl, by simpa [h] using hs⟩
    have hpres : ∀ r : ApprovalRequest,
        ((if r.status == ApprovalStatus.pending && deadlineReached nowTs r
          then { r with status := ApprovalStatus.timeout } else r) :
            ApprovalRequest).request_id = r.request_id := by
      intro r; split <;> rfl
    unfold expireTimeouts
    rw [requestStatus_map db requestId _ hpres, hfind]
    have hnotpending : r0.status ≠ ApprovalStatus.pending := by
      intro hp
      rw [hp] at hstat
      rcases hterm with h | h | h | h <;> simp [← hstat] at h
    have hcond :
        ¬((r0.status == ApprovalStatus.pending
            && deadlineReached nowTs r0) = true) := by
      intro hx
      exact hnotpending (beq_iff_eq.mp ((Bool.and_eq_true _ _).mp hx).1)
    simp only [Option.map]
    rw [if_neg hcond]
    exact congrArg some hstat
  · intro action rts rby note hs
    have hfound : ∃ r0, getRequest db requestId = some r0 := by
      unfold requestStatus at hs
      cases h : getRequest db requestId with
      | none => simp [h] at hs
      | some r0 => exact ⟨r0, rfl⟩
    obtain ⟨r0, hfind⟩ := hfound
    have hid : ∀ r : ApprovalRequest,
        ((if r.request_id == requestId then
            { r with status := resolveStatus action, resolved_at := some rts,
                     resolved_by := some rby, resolution_note := some note }
          else r) : ApprovalRequest).request_id = r.request_id := by
      intro r; split <;> rfl
    unfold resolveRun
    rw [requestStatus_map db requestId _ hid, hfind]
    have hfind2 : List.find? (fun r => r.request_id == requestId) db
        = some r0 := by simpa [getRequest] using hfind
    have hmatch := List.find?_some hfind2
    simp only [] at hmatch
    simp [Option.map, hmatch]

/-- Witness for C6 (amended): a TIMEOUT request survives
`expire_timeouts`, and `resolve(..., APPROVE)` stamps APPROVED over it. -/
theorem terminal_status_after_expire_and_resolve_witness :
    (requestStatus
      [{ request_id := "REQ-2", agent_name := "KM", task := "x",
         risk_level := "HIGH", risk_reason := "", 
         status := ApprovalStatus.timeout, created_at := 0,
         resolved_at := none, resolved_by := none,
         resolution_note := none, webhook_sent := false,
         timeout_hours := 24 }] "REQ-2" = some ApprovalStatus.timeout →
        terminalStatus ApprovalStatus.timeout →
        requestStatus
          (expireTimeouts
            [{ request_id := "REQ-2", agent_name := "KM", task := "x",
               risk_level := "HIGH", risk_reason := "", 
               status := ApprovalStatus.timeout, created_at := 0,
               resolved_at := none, resolved_by := none,
               resolution_note := none, webhook_sent := false,
               timeout_hours := 24 }] 1000000).1 "REQ-2"
          = some ApprovalStatus.timeout) ∧
    requestStatus
      (expireTimeouts
        [{ request_id := "REQ-2", agent_name := "KM", task := "x",
           risk_level := "HIGH", risk_reason := "", 
           status := ApprovalStatus.timeout, created_at := 0,
           resolved_at := none, resolved_by := none,
           resolution_note := none, webhook_sent := false,
           timeout_hours := 24 }] 1000000).1 "REQ-2"
      = some ApprovalStatus.timeout ∧
    requestStatus
      (resolveRun
        [{ request_id := "REQ-2", agent_name := "KM", task := "x",
           risk_level := "HIGH", risk_reason := "", 
           status := ApprovalStatus.timeout, created_at := 0,
           resolved_at := none, resolved_by := none,
           resolution_note := none, webhook_sent := false,
           timeout_hours := 24 }] "REQ-2" ApprovalAction.approve 2000 "admin"
        "late approve") "REQ-2" = some ApprovalStatus.approved := by
  refine ⟨(terminal_status_after_expire_and_resolve _ "REQ-2" 1000000
      ApprovalStatus.timeout).1, ?_, ?_⟩
  · exact (terminal_status_after_expire_and_resolve _ "REQ-2" 1000000
      ApprovalStatus.timeout).1 (by decide) (by decide)
  · exact (terminal_status_after_expire_and_resolve _ "REQ-2" 1000000
      ApprovalStatus.timeout).2 ApprovalAction.approve 2000 "admin"
      "late approve" (by decide)

/-- `_eval_structure` scores always lie in `[0, 1]`. -/
theorem evalStructure_bounds (o : String) :
    0 ≤ evalStructure o ∧ evalStructure o ≤ 1 := by
  constructor
  · simp only [evalStructure]
    refine le_min ?_ (by norm_num)
    split_ifs <;> norm_num
  · simp only [evalStructure]
    exact min_le_right _ _

/-- `_eval_content_richness` scores always lie in `[0, 1]`. -/
theorem evalContentRichness_bounds (o : String) :
    0 ≤ evalContentRichness o ∧ evalContentRichness o ≤ 1 := by
  simp only [evalContentRichness]
  split_ifs <;> norm_num

/-- `_eval_relevance` scores always lie in `[0, 1]`. -/
theorem evalRelevance_bounds (t o : String) :
    0 ≤ evalRelevance t o ∧ evalRelevance t o ≤ 1 := by
  simp only [evalRelevance]
  split_ifs with h
  · norm_num
  · constructor
    · exact le_min (div_nonneg (Nat.cast_nonneg _)
        (le_trans zero_le_one le_sup_right)) (by norm_num)
    · exact min_le_right _ _

/-- The keyword-mode score is the arithmetic mean of the three
sub-scores. -/
theorem evaluate_eq_mean (a t o : String) :
    evaluate a t o =
      (evalStructure o + evalContentRichness o + evalRelevance t o) / 3 := by
  simp [evaluate]
  ring

/-- **C9 counterexample.** On task `cat` and output `concatenate`, the
code's relevance is `1` — the task token `cat` occurs as a *substring* of
the output — while the spec's token-set-intersection formula gives `0`
(`cat` is not an output token), so the keyword-mode score differs from the
claimed mean (`1/2` versus `1/6`). -/
theorem keyword_relevance_counterexample :
    evalRelevance "cat" "concatenate" = 1 ∧
    specRelevance "cat" "concatenate" = 0 ∧
    evaluate "A" "cat" "concatenate" = 1/2 ∧
    (evalStructure "concatenate" + evalContentRichness "concatenate"
      + specRelevance "cat" "concatenate") / 3 = 1/6 ∧
    evaluate "A" "cat" "concatenate" ≠
      (evalStructure "concatenate" + evalContentRichness "concatenate"
        + specRelevance "cat" "concatenate") / 3 := by
  have ht : taskWordSet "cat" = ["cat"] := by decide
  have hout : (pyWords (stripQuoteChars (pyLower "concatenate"))).dedup
      = ["concatenate"] := by decide
  have hc : strContains (pyLower "concatenate") "cat" = true := by decide
  have hrel : evalRelevance "cat" "concatenate" = 1 := by
    simp only [evalRelevance, ht]
    simp [List.filter, hc]
  have hspec : specRelevance "cat" "concatenate" = 0 := by
    simp only [specRelevance, ht, hout]
    simp
  have hst : evalStructure "concatenate" = 0.3 := by
    have h1 : strContains "concatenate" "#" = false := by decide
    have h2 : strContains "concatenate" "-" = false := by decide
    have h3 : strContains "concatenate" "*" = false := by decide
    have h4 : strContains "concatenate" ":" = false := by decide
    have h5 : ("concatenate".toList.filter
        (fun c => c == Char.ofNat 10)).length = 0 := by decide
    simp only [evalStructure, h1, h2, h3, h4, h5]
    norm_num
  have hrich : evalContentRichness "concatenate" = 0.2 := by
    have hlen : "concatenate".length = 11 := by decide
    simp only [evalContentRichness, hlen]
    norm_num
  have hmean := evaluate_eq_mean "A" "cat" "concatenate"
  refine ⟨hrel, hspec, ?_, ?_, ?_⟩
  · rw [hmean, hst, hrich, hrel]; norm_num
  · rw [hst, hrich, hspec]; norm_num
  · rw [hmean, hst, hrich, hrel, hspec]; norm_num

/-- **C9 (amended).** The keyword-mode `evaluate` returns the arithmetic
mean of the structure, richness, and relevance scores, where relevance is
the fraction of **distinct task tokens occurring as substrings of the
lowercased output** (capped at 1), equals 0.5 when the task has no tokens,
and the returned score always lies in `[0, 1]`. -/
theorem keyword_eval_mean_and_bounds (a t o : String) :
    evaluate a t o =
      (evalStructure o + evalContentRichness o + evalRelevance t o) / 3 ∧
    (taskWordSet t = [] → evalRelevance t o = 1/2) ∧
    0 ≤ evaluate a t o ∧ evaluate a t o ≤ 1 := by
  have hmean := evaluate_eq_mean a t o
  refine ⟨hmean, fun h => by simp [evalRelevance, h]; norm_num, ?_, ?_⟩
  · rw [hmean]
    have h1 := evalStructure_bounds o
    have h2 := evalContentRichness_bounds o
    have h3 := evalRelevance_bounds t o
    have : (0 : ℚ) ≤ evalStructure o + evalContentRichness o
        + evalRelevance t o := by linarith [h1.1, h2.1, h3.1]
    positivity
  · rw [hmean]
    have h1 := evalStructure_bounds o
    have h2 := evalContentRichness_bounds o
    have h3 := evalRelevance_bounds t o
    rw [div_le_one (by norm_num)]
    linarith [h1.2, h2.2, h3.2]

/-- Witness for C9 (amended) at a token-free task. -/
theorem keyword_eval_mean_and_bounds_witness :
    evaluate "A" "" "hello" =
      (evalStructure "hello" + evalContentRichness "hello"
        + evalRelevance "" "hello") / 3 ∧
    evalRelevance "" "hello" = 1/2 ∧
    0 ≤ evaluate "A" "" "hello" ∧ evaluate "A" "" "hello" ≤ 1 :=
  ⟨(keyword_eval_mean_and_bounds "A" "" "hello").1,
   (keyword_eval_mean_and_bounds "A" "" "hello").2.1 (by decide),
   (keyword_eval_mean_and_bounds "A" "" "hello").2.2.1,
   (keyword_eval_mean_and_bounds "A" "" "hello").2.2.2⟩

/-- Splitting a power-of-two sleep schedule at its head. -/
theorem pow_range_cons (r d : Nat) :
    (List.range (d + 1)).map (fun i => 2 ^ (r + i))
      = 2 ^ r :: (List.range d).map (fun i => 2 ^ (r + 1 + i)) := by
  rw [List.range_succ_eq_map]
  simp only [List.map_cons, List.map_map, Nat.add_zero]
  refine congrArg (List.cons (2 ^ r)) (List.map_congr_left ?_)
  intro i _
  show 2 ^ (r + (i + 1)) = 2 ^ (r + 1 + i)
  congr 1
  omega

/-- The full lifecycle of a pending task under an always-raising executor:
with `retry_count + d = max_retries = K`, the worker performs `d + 1` more
executor invocations, sleeps `2^(retry_count), …, 2^(K-1)` seconds between
them, and ends with the row `FAILED`, `retry_count = K + 1`, and
`completed_at` set. -/
theorem workerRun_allFail (K : Nat) (errs : Nat → String) (nowTs : Nat) :
    ∀ (d : Nat) (t : TaskRow), t.status = TaskStatus.pending →
      t.max_retries = K → t.retry_count + d = K →
      workerRun (fun n => Except.error (errs n)) nowTs (d + 1) t =
        (d + 1, (List.range d).map (fun i => 2 ^ (t.retry_count + i)),
         { t with status := TaskStatus.failed, started_at := some nowTs,
                  retry_count := K + 1, error := some (errs K),
                  completed_at := some nowTs }) := by
  intro d
  induction d with
  | zero =>
      intro t hst hmax hrc
      have h0 : t.retry_count = K := by omega
      have hKK : ¬(K + 1 ≤ K) := by omega
      simp [workerRun, executeTaskStep, hst, h0, hmax, hKK]
  | succ d ih =>
      intro t hst hmax hrc
      have hcond : t.retry_count + 1 ≤ t.max_retries := by omega
      have hstep : workerRun (fun n => Except.error (errs n)) nowTs
          (d + 1 + 1) t =
          (let t2 : TaskRow :=
            { t with status := TaskStatus.pending,
                     started_at := some nowTs,
                     error := some (errs t.retry_count),
                     retry_count := t.retry_count + 1 }
           let rest := workerRun (fun n => Except.error (errs n)) nowTs
             (d + 1) t2
           (rest.1 + 1, 2 ^ t.retry_count :: rest.2.1, rest.2.2)) := by
        simp [workerRun, executeTaskStep, hst, hcond]
      rw [hstep]
      dsimp only
      rw [ih { t with status := TaskStatus.pending,
                      started_at := some nowTs,
                      error := some (errs t.retry_count),
                      retry_count := t.retry_count + 1 }
            rfl hmax (by show t.retry_count + 1 + d = K; omega)]
      dsimp only
      rw [pow_range_cons]

/-- **C3.** Retry budget and backoff: a queued `PENDING` task whose stored
`max_retries` is `K`, run against an executor that raises on every
invocation, is invoked exactly `K + 1` times, sleeps `2^(i-1)` seconds
after the `i`-th failure for `i = 1..K`, and ends `FAILED` with
`completed_at` set (and `retry_count = K + 1`). -/
theorem retry_budget_and_backoff (K : Nat) (errs : Nat → String)
    (nowTs : Nat) (taskId agentName instruction : String)
    (prio created : Nat) :
    workerRun (fun n => Except.error (errs n)) nowTs (K + 1)
      { task_id := taskId, agent_name := agentName,
        instruction := instruction, priority := prio,
        status := TaskStatus.pending, created_at := created,
        retry_count := 0, max_retries := K } =
      (K + 1, (List.range K).map (fun i => 2 ^ i),
       { task_id := taskId, agent_name := agentName,
         instruction := instruction, priority := prio,
         status := TaskStatus.failed, created_at := created,
         started_at := some nowTs, completed_at := some nowTs,
         result := none, error := some (errs K),
         retry_count := K + 1, max_retries := K }) := by
  have h := workerRun_allFail K errs nowTs K
    { task_id := taskId, agent_name := agentName,
      instruction := instruction, priority := prio,
      status := TaskStatus.pending, created_at := created,
      retry_count := 0, max_retries := K } rfl rfl (by simp)
  simpa using h

/-- Inverting `statusOf`: a reported status comes from the first row with
that task id. -/
theorem statusOf_eq_some (rows : List TaskRow) (taskId : String)
    (s : TaskStatus) (h : statusOf rows taskId = some s) :
    ∃ r, rows.find? (fun r => r.task_id == taskId) = some r ∧
      r.status = s := by
  unfold statusOf at h
  cases hf : rows.find? (fun r => r.task_id == taskId) with
  | none => rw [hf] at h; simp at h
  | some r => rw [hf] at h; exact ⟨r, rfl, by simpa using h⟩

/-- `statusOf` over a row map whose function preserves `task_id`. -/
theorem statusOf_map (rows : List TaskRow) (taskId : String)
    (f : TaskRow → TaskRow) (hid : ∀ r, (f r).task_id = r.task_id) :
    statusOf (rows.map f) taskId
      = (rows.find? (fun r => r.task_id == taskId)).map
          (fun r => (f r).status) := by
  induction rows with
  | nil => rfl
  | cons head tail ih =>
      unfold statusOf at *
      by_cases h : head.task_id = taskId
      · simp [List.find?_cons, hid, h]
      · simpa [List.find?_cons, hid, h] using ih

/-- A positional update of a `PENDING` row by one with the same `task_id`
cannot change the status reported for a cancelled task id. -/
theorem statusOf_set_preserved :
    ∀ (rows : List TaskRow) (i : Nat) (old targetRow : TaskRow)
      (taskId : String),
      rows.get? i = some old → targetRow.task_id = old.task_id →
      old.status = TaskStatus.pending →
      statusOf rows taskId = some TaskStatus.cancelled →
      statusOf (rows.set i targetRow) taskId
        = some TaskStatus.cancelled := by
  intro rows
  induction rows with
  | nil => intro i old targetRow taskId hget; simp at hget
  | cons head tail ih =>
      intro i old targetRow taskId hget hid hold hstat
      cases i with
      | zero =>
          simp only [List.get?] at hget
          cases hget
          by_cases h : head.task_id = taskId
          · exfalso
            unfold statusOf at hstat
            rw [List.find?_cons_of_pos _ (by simpa using h)] at hstat
            simp [hold] at hstat
          · unfold statusOf at hstat ⊢
            rw [List.find?_cons_of_neg _ (by simpa using h)] at hstat
            simp only [List.set]
            rw [List.find?_cons_of_neg _ (by simp [hid, h])]
            exact hstat
      | succ i =>
          simp only [List.get?] at hget
          unfold statusOf at hstat ⊢
          simp only [List.set]
          by_cases h : head.task_id = taskId
          · rw [List.find?_cons_of_pos _ (by simpa using h)] at hstat ⊢
            exact hstat
          · rw [List.find?_cons_of_neg _ (by simpa using h)] at hstat ⊢
            exact ih i old targetRow taskId hget hid hold hstat

/-- `executeTaskStep` never changes the task id. -/
theorem executeTaskStep_task_id (execResult : Except String String)
    (nowTs : Nat) (t : TaskRow) :
    ((executeTaskStep execResult nowTs t).1).task_id = t.task_id := by
  cases execResult with
  | ok res => rfl
  | error e =>
      dsimp only [executeTaskStep]
      split <;> rfl

/-- `selectPending` returns a pending row together with its position. -/
theorem selectPending_get :
    ∀ (rows : List TaskRow) (i : Nat) (m : TaskRow),
      selectPending rows = some (i, m) →
      rows.get? i = some m ∧ m.status = TaskStatus.pending := by
  intro rows
  induction rows with
  | nil => intro i m h; simp [selectPending] at h
  | cons head tail ih =>
      intro i m h
      unfold selectPending at h
      cases hsel : selectPending tail with
      | none =>
          rw [hsel] at h
          dsimp only at h
          by_cases hp : head.status = TaskStatus.pending
          · rw [if_pos hp] at h
            obtain ⟨rfl, rfl⟩ := Prod.mk.injEq .. ▸ Option.some.inj h
            exact ⟨rfl, hp⟩
          · rw [if_neg hp] at h; cases h
      | some im =>
          obtain ⟨j, m0⟩ := im
          rw [hsel] at h
          dsimp only at h
          obtain ⟨hget, hpend⟩ := ih j m0 hsel
          by_cases hp : head.status = TaskStatus.pending
          · rw [if_pos hp] at h
            by_cases hk : taskKeyLt m0 head
            · rw [if_pos hk] at h
              obtain ⟨rfl, rfl⟩ := Prod.mk.injEq .. ▸ Option.some.inj h
              exact ⟨hget, hpend⟩
            · rw [if_neg hk] at h
              obtain ⟨rfl, rfl⟩ := Prod.mk.injEq .. ▸ Option.some.inj h
              exact ⟨rfl, hp⟩
          · rw [if_neg hp] at h
            obtain ⟨rfl, rfl⟩ := Prod.mk.injEq .. ▸ Option.some.inj h
            exact ⟨hget, hpend⟩

/-- If `selectPending` finds nothing, no row is pending. -/
theorem selectPending_none :
    ∀ (rows : List TaskRow), selectPending rows = none →
      ∀ x ∈ rows, x.status ≠ TaskStatus.pending := by
  intro rows
  induction rows with
  | nil => intro _ x hx; simp at hx
  | cons head tail ih =>
      intro h x hx
      unfold selectPending at h
      cases hsel : selectPending tail with
      | none =>
          rw [hsel] at h
          dsimp only at h
          by_cases hp : head.status = TaskStatus.pending
          · rw [if_pos hp] at h; cases h
          · rw [if_neg hp] at h
            rcases List.mem_cons.mp hx with rfl | hx'
            · exact hp
            · exact ih hsel x hx'
      | some im =>
          obtain ⟨j, m0⟩ := im
          rw [hsel] at h
          dsimp only at h
          by_cases hp : head.status = TaskStatus.pending
          · rw [if_pos hp] at h
            split at h <;> cases h
          · rw [if_neg hp] at h; cases h

/-- One queue operation cannot revive a cancelled task id: `enq` is blocked
by the PRIMARY KEY, `cancel` and the worker's finish update only touch
`PENDING` / `RUNNING` rows, and a dequeue claims only a `PENDING` row. -/
theorem statusOf_applyOp_cancelled (rows : List TaskRow) (taskId : String)
    (op : QueueOp) (h : statusOf rows taskId = some TaskStatus.cancelled) :
    statusOf (applyOp rows op) taskId = some TaskStatus.cancelled := by
  obtain ⟨r0, hfind, hstat⟩ := statusOf_eq_some rows taskId _ h
  cases op with
  | enq row =>
      dsimp only [applyOp]
      split
      · exact h
      · unfold statusOf
        rw [List.find?_append, hfind]
        simpa using hstat
  | cancelT tid =>
      dsimp only [applyOp]
      unfold cancelRun
      rw [statusOf_map _ _ _ (by intro r; split <;> rfl), hfind]
      have hguard : (r0.task_id == tid && r0.status == TaskStatus.pending)
          = false := by
        simp [hstat]
      simp [hguard, hstat]
  | dequeue nowTs =>
      dsimp only [applyOp]
      unfold dequeueNext
      cases hsel : selectPending rows with
      | none => exact h
      | some im =>
          obtain ⟨i, m⟩ := im
          obtain ⟨hget, hpend⟩ := selectPending_get rows i m hsel
          exact statusOf_set_preserved rows i m _ taskId hget rfl hpend h
  | finish tid execResult nowTs =>
      dsimp only [applyOp]
      rw [statusOf_map _ _ _ (by
        intro r
        split
        · exact executeTaskStep_task_id _ _ _
        · rfl), hfind]
      have hguard : (r0.task_id == tid && r0.status == TaskStatus.running)
          = false := by
        simp [hstat]
      simp [hguard, hstat]

/-- A cancelled task id stays cancelled across any sequence of queue
operations. -/
theorem statusOf_applyOps_cancelled (taskId : String) (ops : List QueueOp) :
    ∀ (rows : List TaskRow),
      statusOf rows taskId = some TaskStatus.cancelled →
      statusOf (applyOps rows ops) taskId = some TaskStatus.cancelled := by
  induction ops with
  | nil => intro rows h; exact h
  | cons op ops ih =>
      intro rows h
      exact ih (applyOp rows op) (statusOf_applyOp_cancelled rows taskId op h)

/-- **C5.** Cancel scope: `cancel(t)` returns true exactly when a stored
row for `t` is `PENDING` at the time of the call; cancelling a pending
task id marks it `CANCELLED`; and a cancelled task id is never
subsequently claimed — across any sequence of queue operations its status
stays `CANCELLED` and in particular never becomes `RUNNING` or
`COMPLETED`. -/
theorem cancel_scope (rows : List TaskRow) (taskId : String) :
    (cancelReturns rows taskId = true ↔
      ∃ r ∈ rows, r.task_id = taskId ∧ r.status = TaskStatus.pending) ∧
    (statusOf rows taskId = some TaskStatus.pending →
      cancelReturns rows taskId = true ∧
      statusOf (cancelRun rows taskId) taskId
        = some TaskStatus.cancelled) ∧
    (∀ ops : List QueueOp,
      statusOf rows taskId = some TaskStatus.cancelled →
      statusOf (applyOps rows ops) taskId = some TaskStatus.cancelled ∧
      statusOf (applyOps rows ops) taskId ≠ some TaskStatus.running ∧
      statusOf (applyOps rows ops) taskId ≠ some TaskStatus.completed) := by
  refine ⟨?_, ?_, ?_⟩
  · unfold cancelReturns
    simp [List.any_eq_true, Bool.and_eq_true, beq_iff_eq]
  · intro h
    obtain ⟨r0, hfind, hstat⟩ := statusOf_eq_some rows taskId _ h
    have hmem := List.mem_of_find?_eq_some hfind
    have hmatch := List.find?_some hfind
    simp only [] at hmatch
    constructor
    · unfold cancelReturns
      rw [List.any_eq_true]
      exact ⟨r0, hmem, by simp [hmatch, hstat]⟩
    · unfold cancelRun
      rw [statusOf_map _ _ _ (by intro r; split <;> rfl), hfind]
      have hguard : (r0.task_id == taskId
          && r0.status == TaskStatus.pending) = true := by
        simp [hmatch, hstat]
      rw [Option.map_some', if_pos hguard]
  · intro ops h
    have habs := statusOf_applyOps_cancelled taskId ops rows h
    refine ⟨habs, ?_, ?_⟩ <;> rw [habs] <;> simp

/-- The strict task ordering is irreflexive. -/
theorem taskKeyLt_irrefl (a : TaskRow) : ¬ taskKeyLt a a := by
  unfold taskKeyLt; omega

/-- The strict task ordering is asymmetric. -/
theorem taskKeyLt_asymm {a b : TaskRow} (h : taskKeyLt a b) :
    ¬ taskKeyLt b a := by
  unfold taskKeyLt at *; omega

/-- `x < t` and `t ≤ m` (as the negation of `m < t`) give `x < m`. -/
theorem taskKeyLt_trans_not {x t m : TaskRow} (h1 : taskKeyLt x t)
    (h2 : ¬ taskKeyLt m t) : taskKeyLt x m := by
  unfold taskKeyLt at *; omega

instance : IsTotal TaskRow taskKeyLe :=
  ⟨by intro a b; unfold taskKeyLe; omega⟩

instance : IsTrans TaskRow taskKeyLe :=
  ⟨by intro a b c; unfold taskKeyLe; omega⟩

/-- `selectPending` picks a `(priority, created_at)`-minimal pending row. -/
theorem selectPending_min :
    ∀ (rows : List TaskRow) (i : Nat) (m : TaskRow),
      selectPending rows = some (i, m) →
      ∀ x ∈ rows, x.status = TaskStatus.pending → ¬ taskKeyLt x m := by
  intro rows
  induction rows with
  | nil => intro i m h; simp [selectPending] at h
  | cons head tail ih =>
      intro i m h x hx hxp
      unfold selectPending at h
      cases hsel : selectPending tail with
      | none =>
          rw [hsel] at h
          dsimp only at h
          by_cases hp : head.status = TaskStatus.pending
          · rw [if_pos hp] at h
            obtain ⟨rfl, rfl⟩ := Prod.mk.injEq .. ▸ Option.some.inj h
            rcases List.mem_cons.mp hx with rfl | hx'
            · exact taskKeyLt_irrefl x
            · exact absurd hxp (selectPending_none tail hsel x hx')
          · rw [if_neg hp] at h; cases h
      | some im =>
          obtain ⟨j, m0⟩ := im
          rw [hsel] at h
          dsimp only at h
          by_cases hp : head.status = TaskStatus.pending
          · rw [if_pos hp] at h
            by_cases hk : taskKeyLt m0 head
            · rw [if_pos hk] at h
              obtain ⟨rfl, rfl⟩ := Prod.mk.injEq .. ▸ Option.some.inj h
              rcases List.mem_cons.mp hx with rfl | hx'
              · exact taskKeyLt_asymm hk
              · exact ih j m0 hsel x hx' hxp
            · rw [if_neg hk] at h
              obtain ⟨rfl, rfl⟩ := Prod.mk.injEq .. ▸ Option.some.inj h
              rcases List.mem_cons.mp hx with rfl | hx'
              · exact taskKeyLt_irrefl x
              · intro hxm
                exact absurd (taskKeyLt_trans_not hxm hk)
                  (ih j m0 hsel x hx' hxp)
          · rw [if_neg hp] at h
            obtain ⟨rfl, rfl⟩ := Prod.mk.injEq .. ▸ Option.some.inj h
            rcases List.mem_cons.mp hx with rfl | hx'
            · exact absurd hxp hp
            · exact ih j m0 hsel x hx' hxp

/-- Unfolding one claim step of `claimedSeq`. -/
theorem claimedSeq_succ (nowTs n : Nat) (rows : List TaskRow) (i : Nat)
    (m : TaskRow) (hsel : selectPending rows = some (i, m)) :
    claimedSeq nowTs (n + 1) rows
      = claimedRow nowTs m
          :: claimedSeq nowTs n (rows.set i (claimedRow nowTs m)) := by
  have hdq : dequeueNext nowTs rows
      = (some (claimedRow nowTs m), rows.set i (claimedRow nowTs m)) := by
    unfold dequeueNext
    rw [hsel]
    rfl
  simp only [claimedSeq, hdq]

/-- Two rows with different `(priority, created_at)` keys stay different
after being claimed. -/
theorem claimedRow_ne_of_keyLt {x y : TaskRow} (nowTs : Nat)
    (h : taskKeyLt x y) : claimedRow nowTs x ≠ claimedRow nowTs y := by
  intro he
  have hp := congrArg TaskRow.priority he
  have hc := congrArg TaskRow.created_at he
  dsimp [claimedRow] at hp hc
  unfold taskKeyLt at h
  omega

/-- The dequeue trace claims a strict-key-smaller pending row before a
larger one: whenever `b`'s claim shows up in the trace, `a`'s claim is
already there, earlier. -/
theorem claimed_before (nowTs : Nat) :
    ∀ (n : Nat) (rows : List TaskRow) (a b : TaskRow),
      a ∈ rows → b ∈ rows → a.status = TaskStatus.pending →
      b.status = TaskStatus.pending → taskKeyLt a b →
      claimedRow nowTs b ∈ claimedSeq nowTs n rows →
      claimedRow nowTs a ∈ claimedSeq nowTs n rows ∧
      (claimedSeq nowTs n rows).indexOf (claimedRow nowTs a)
        < (claimedSeq nowTs n rows).indexOf (claimedRow nowTs b) := by
  intro n
  induction n with
  | zero =>
      intro rows a b _ _ _ _ _ hb'
      simp [claimedSeq] at hb'
  | succ n ih =>
      intro rows a b ha hb hpa hpb hkab hb'
      cases hsel : selectPending rows with
      | none => exact absurd hpa (selectPending_none rows hsel a ha)
      | some im =>
          obtain ⟨i, m⟩ := im
          obtain ⟨hget, hmp⟩ := selectPending_get rows i m hsel
          have hmin_a : ¬ taskKeyLt a m := selectPending_min rows i m hsel a ha hpa
          have hcb : claimedRow nowTs m ≠ claimedRow nowTs b := by
            intro he
            have hp := congrArg TaskRow.priority he
            have hc := congrArg TaskRow.created_at he
            dsimp [claimedRow] at hp hc
            apply hmin_a
            unfold taskKeyLt at *
            omega
          rw [claimedSeq_succ nowTs n rows i m hsel] at hb' ⊢
          by_cases hca : claimedRow nowTs m = claimedRow nowTs a
          · have hab : claimedRow nowTs a ≠ claimedRow nowTs b :=
              claimedRow_ne_of_keyLt nowTs hkab
            have hbtail : claimedRow nowTs b
                ∈ claimedSeq nowTs n (rows.set i (claimedRow nowTs m)) := by
              rcases List.mem_cons.mp hb' with he | h
              · exact absurd he.symm hcb
              · exact h
            rw [hca]
            refine ⟨List.mem_cons_self _ _, ?_⟩
            rw [List.indexOf_cons_self]
            rw [List.indexOf_cons_ne _ hab]
            exact Nat.succ_pos _
          · have hbtail : claimedRow nowTs b
                ∈ claimedSeq nowTs n (rows.set i (claimedRow nowTs m)) := by
              rcases List.mem_cons.mp hb' with he | h
              · exact absurd he.symm hcb
              · exact h
            obtain ⟨ja, hja⟩ := List.mem_iff_get?.mp ha
            obtain ⟨jb, hjb⟩ := List.mem_iff_get?.mp hb
            have hja_ne : ja ≠ i := by
              intro he
              rw [he, hget] at hja
              exact hca (congrArg (claimedRow nowTs) (Option.some.inj hja))
            have hjb_ne : jb ≠ i := by
              intro he
              rw [he, hget] at hjb
              exact hcb (congrArg (claimedRow nowTs) (Option.some.inj hjb))
            have ha2 : a ∈ rows.set i (claimedRow nowTs m) := by
              refine List.mem_iff_get?.mpr ⟨ja, ?_⟩
              rw [List.get?_eq_getElem?, List.getElem?_set_ne (fun he => hja_ne he.symm),
                ← List.get?_eq_getElem?]
              exact hja
            have hb2 : b ∈ rows.set i (claimedRow nowTs m) := by
              refine List.mem_iff_get?.mpr ⟨jb, ?_⟩
              rw [List.get?_eq_getElem?, List.getElem?_set_ne (fun he => hjb_ne he.symm),
                ← List.get?_eq_getElem?]
              exact hjb
            obtain ⟨hmemA, hidx⟩ := ih (rows.set i (claimedRow nowTs m)) a b
              ha2 hb2 hpa hpb hkab hbtail
            refine ⟨List.mem_cons_of_mem _ hmemA, ?_⟩
            rw [List.indexOf_cons_ne _ hca]
            rw [List.indexOf_cons_ne _ hcb]
            exact Nat.succ_lt_succ hidx

/-- **C4.** Priority ordering: `get_pending_tasks` returns exactly the
pending rows, sorted by `(priority ASC, created_at ASC)`; and over any run
of dequeue operations, a pending task strictly smaller in that key is
claimed before a larger one (at equal priority, the earlier `created_at`
claims first). -/
theorem priority_ordering (nowTs : Nat) (rows : List TaskRow)
    (agentFilter : Option String) (a b : TaskRow) (n : Nat) :
    List.Sorted taskKeyLe (getPendingTasks rows agentFilter) ∧
    (getPendingTasks rows agentFilter).Perm
      (rows.filter (fun r =>
        match agentFilter with
        | some ag => r.status == TaskStatus.pending && r.agent_name == ag
        | none => r.status == TaskStatus.pending)) ∧
    (a ∈ rows → b ∈ rows → a.status = TaskStatus.pending →
      b.status = TaskStatus.pending → taskKeyLt a b →
      claimedRow nowTs b ∈ claimedSeq nowTs n rows →
      claimedRow nowTs a ∈ claimedSeq nowTs n rows ∧
      (claimedSeq nowTs n rows).indexOf (claimedRow nowTs a)
        < (claimedSeq nowTs n rows).indexOf (claimedRow nowTs b)) := by
  refine ⟨?_, ?_, claimed_before nowTs n rows a b⟩
  · simp only [getPendingTasks]
    exact List.sorted_insertionSort _ _
  · simp only [getPendingTasks]
    exact List.perm_insertionSort _ _

/-- Witness for C4 on end-to-end scenario 2 (four tasks LOW, NORMAL,
CRITICAL, HIGH): the CRITICAL task's claim precedes the HIGH task's claim
in a four-step dequeue trace. -/
theorem priority_ordering_witness :
    List.Sorted taskKeyLe (getPendingTasks scenarioRows none) ∧
    (claimedRow 9 rowCrit ∈ claimedSeq 9 4 scenarioRows ∧
      (claimedSeq 9 4 scenarioRows).indexOf (claimedRow 9 rowCrit)
        < (claimedSeq 9 4 scenarioRows).indexOf (claimedRow 9 rowHigh)) :=
  ⟨(priority_ordering 9 scenarioRows none rowCrit rowHigh 4).1,
   (priority_ordering 9 scenarioRows none rowCrit rowHigh 4).2.2
     (by decide) (by decide) (by decide) (by decide) (by decide)
     (by decide)⟩

/-- Witness for C5 on a single pending task: a successful cancel marks it
`CANCELLED`, and a later dequeue plus worker-finish leave it `CANCELLED`
(so never `RUNNING` or `COMPLETED`). -/
theorem cancel_scope_witness :
    (cancelReturns [pendingRowT1] "T1" = true ∧
      statusOf (cancelRun [pendingRowT1] "T1") "T1"
        = some TaskStatus.cancelled) ∧
    (statusOf
        (applyOps (cancelRun [pendingRowT1] "T1")
          [QueueOp.dequeue 5, QueueOp.finish "T1" (Except.ok "r") 6]) "T1"
      = some TaskStatus.cancelled ∧
     statusOf
        (applyOps (cancelRun [pendingRowT1] "T1")
          [QueueOp.dequeue 5, QueueOp.finish "T1" (Except.ok "r") 6]) "T1"
      ≠ some TaskStatus.running ∧
     statusOf
        (applyOps (cancelRun [pendingRowT1] "T1")
          [QueueOp.dequeue 5, QueueOp.finish "T1" (Except.ok "r") 6]) "T1"
      ≠ some TaskStatus.completed) :=
  ⟨(cancel_scope [pendingRowT1] "T1").2.1 (by decide),
   (cancel_scope (cancelRun [pendingRowT1] "T1") "T1").2.2
     [QueueOp.dequeue 5, QueueOp.finish "T1" (Except.ok "r") 6]
     (by decide)⟩
